import Mathlib

/-!
Verification development for the `bevy_physics_playground` repository.

The embedding below translates the interaction core of `src/main.rs` and the
particle bounds sweep of `src/balls.rs` into Lean definitions.  Coordinates are
modelled with exact rationals (`ℚ`); the source uses `f32`, whose arithmetic
expressions are carried over term-for-term.  Rotation angles (which the source
computes with transcendental functions) are modelled over `ℝ` via `Complex.arg`.
-/

namespace PhysicsPlayground

/-- A 2D vector, modelling `bevy::math::Vec2` with exact rational coordinates. -/
structure Q2 where
  x : ℚ
  y : ℚ
  deriving DecidableEq, Repr

/-- The interaction mode resource (`enum Mode` in `main.rs`). -/
inductive Mode where
  | default
  | create
  | modify
  deriving DecidableEq, Repr

/-- The per-entity in-progress-interaction component (`enum Modifying` in `main.rs`). -/
inductive Modifying where
  | placing
  | scaling (start : Q2)
  | moving (start : Q2)
  | rotating (start : Q2)
  deriving DecidableEq, Repr

/-- Collider shapes used by the program (`bevy_rapier2d` colliders:
`Collider::cuboid(0.5, 0.5)` for committed shapes, `Collider::ball(1.0)` for particles). -/
inductive Collider where
  | cuboid (hx hy : ℚ)
  | ball (r : ℚ)
  deriving DecidableEq, Repr

/-- The shape-kind component (`enum Solid` in `main.rs`). -/
inductive Solid where
  | box
  | forceField (force : Q2)
  deriving DecidableEq, Repr

/-- The creation tools (`enum Tool` in `main.rs`). -/
inductive Tool where
  | box
  | forceField
  deriving DecidableEq, Repr

/-- Hover sub-region classification (`enum HoverPosition` in `main.rs`). -/
inductive HoverPosition where
  | center
  | edge
  | corner
  deriving DecidableEq, Repr

/-! ### Pointer tracker (`calculate_mouse_position` in `main.rs`)

The source reads `window.cursor_position()`, pipes it through
`camera.viewport_to_world_2d` with `and_then`, and falls back to
`Vec2::default()` (the zero vector) with `unwrap_or_default()`.  The camera
projection is kept abstract as a partial function `v2w`.  The previous tracked
position `prev` is passed in to model the overwritten `Mouse` resource. -/

/-- World-space pointer position computed by `calculate_mouse_position`: the new
value of the `Mouse` resource, given its previous value, the window's cursor
position, and the camera's viewport-to-world projection. -/
def calculate_mouse_position (_prev : Q2) (cursor : Option Q2) (v2w : Q2 → Option Q2) : Q2 :=
  (cursor.bind v2w).getD ⟨0, 0⟩

/-! ### Bounds sweep (`despawn_outside_world` in `balls.rs`)

The system queries `(Entity, &Transform)` filtered by `Without<Modifying>`, and
despawns every queried entity whose translation leaves the rectangle
`[-width, width] × [-height, height]`, where `width`/`height` are the full
window resolution.  If no window exists (`get_single()` fails) the system does
nothing. -/

/-- An entity as seen by the bounds sweep: its translation (only `x`/`y` are
tested by the source) and its optional `Modifying` component. -/
structure WEntity where
  translation : Q2
  modifying : Option Modifying
  deriving DecidableEq, Repr

/-- The despawn test in `despawn_outside_world`, in the source's order:
`t.y < -height || t.x < -width || t.x > width || t.y > height`. -/
def outside_world (width height : ℚ) (t : Q2) : Bool :=
  t.y < -height || t.x < -width || t.x > width || t.y > height

/-- One run of `despawn_outside_world`: the surviving entity list.  `window` is
`none` when `window_query.get_single()` fails (the system then no-ops);
otherwise it carries the window resolution `(width, height)`.  Entities with a
`Modifying` component are excluded from the query by `Without<Modifying>`. -/
def despawn_outside_world (window : Option (ℚ × ℚ)) (es : List WEntity) : List WEntity :=
  match window with
  | none => es
  | some (width, height) =>
      es.filter fun e => !(e.modifying == none && outside_world width height e.translation)

/-! ### Scaling step (`scale` in `main.rs`)

For every entity with `Modifying::Scaling { start }`, the system sets
`translation = ((pos.x + start.x)/2, (pos.y + start.y)/2)` and then
`scale = (|(pos.x - translation.x) * 2|, |(pos.y - translation.y) * 2|)`,
where `pos` is the current pointer position. -/

/-- The translation/scale part of a `Transform`, as mutated by `scale`. -/
structure ScTransform where
  translation : Q2
  scale : Q2
  deriving DecidableEq, Repr

/-- One entity's update under the `scale` system. -/
def scale_step (pos : Q2) (tr : ScTransform) (m : Modifying) : ScTransform :=
  match m with
  | .scaling start =>
      let tx : ℚ := (pos.x + start.x) / 2
      let ty : ℚ := (pos.y + start.y) / 2
      { translation := ⟨tx, ty⟩
        scale := ⟨|(pos.x - tx) * 2|, |(pos.y - ty) * 2|⟩ }
  | _ => tr

/-- The `scale` system over its whole query `(&mut Transform, &Modifying)`. -/
def scale_system (pos : Q2) (es : List (ScTransform × Modifying)) :
    List (ScTransform × Modifying) :=
  es.map fun tm => (scale_step pos tm.1 tm.2, tm.2)

/-! ### Indexed list helpers

`mapIdxQ` and `filterIdxQ` are plain index-threading recursions used to embed
the source's entity-indexed loops. -/

/-- Map with the element's index, starting from `i`. -/
def mapIdxQ (f : Nat → α → α) : Nat → List α → List α
  | _, [] => []
  | i, a :: as => f i a :: mapIdxQ f (i + 1) as

/-- Filter with the element's index, starting from `i`. -/
def filterIdxQ (p : Nat → α → Bool) : Nat → List α → List α
  | _, [] => []
  | i, a :: as =>
      if p i a then a :: filterIdxQ p (i + 1) as else filterIdxQ p (i + 1) as

/-! ### Top-candidate selection (first loop of `set_hover` in `main.rs`)

`set_hover` first collects the rapier point-intersection hits into a set and
then scans its query for the hit entity with the strictly largest
`translation().z`, starting from `f32::NEG_INFINITY` (modelled by `none`). -/

/-- The loop test `z > highest_z`, where `none` is the initial
`f32::NEG_INFINITY` accumulator. -/
def betterZ : Option (Nat × ℚ) → ℚ → Bool
  | none, _ => true
  | some acc, z => acc.2 < z

/-- The max-`z` scan: `cand i a` says whether the row at index `i` is in the
intersection hit set (and in the query), `key` extracts its `z`. -/
def smAux (cand : Nat → α → Bool) (key : α → ℚ) : List α → Nat → Option (Nat × ℚ) → Option (Nat × ℚ)
  | [], _, acc => acc
  | a :: as, i, acc =>
      smAux cand key as (i + 1) (if cand i a && betterZ acc (key a) then some (i, key a) else acc)

/-- Index of the selected `highest_entity`, if any. -/
def selectTop (cand : Nat → α → Bool) (key : α → ℚ) (es : List α) : Option Nat :=
  (smAux cand key es 0 none).map Prod.fst

/-! ### The interaction state machine

`GameState` gathers the mutable state the event handlers of `main.rs` touch:
the `Mode` resource, the `ZCounter` resource, and the shape entities (the ones
spawned by `handle_tool_events`, carrying `Solid`, `Hoverable`, optionally
`Modifying` and a collider, at a `z` coordinate).  The systems `scale`,
`rotate`, `move_to_mouse` and `move_towards_mouse` write only `Transform` /
`Velocity` and so do not appear as steps here (they cannot change any tracked
field); they are embedded separately below.  Particle entities (`balls.rs`)
carry no `Hoverable`/`Solid`/`Modifying` and never interact with this machine;
the bounds sweep's effect on shape entities is the `sweep` step. -/

/-- A shape entity's machine-relevant components. -/
structure GEntity where
  solid : Solid
  collider : Option Collider
  modifying : Option Modifying
  z : ℚ
  hover : Option HoverPosition
  deriving DecidableEq, Repr

/-- The machine state: `Mode` resource, `ZCounter` resource, shape entities. -/
structure GameState where
  mode : Mode
  zCounter : ℚ
  entities : List GEntity
  deriving DecidableEq, Repr

/-- Startup state: `Mode::Default`, `ZCounter(0.0)`, no shape entities. -/
def GameState.init : GameState := ⟨.default, 0, []⟩

/-- The entity bundle spawned by `handle_tool_events` for a tool: `Solid`,
default `Hoverable`, `Modifying::Placing`, no collider, at z = the counter. -/
def spawned (t : Tool) (z : ℚ) : GEntity :=
  match t with
  | .box => { solid := .box, collider := none, modifying := some .placing, z := z, hover := none }
  | .forceField =>
      { solid := .forceField ⟨0, 1/2⟩, collider := none, modifying := some .placing, z := z,
        hover := none }

/-- `handle_tool_events` for one `ToolEvent`: ignored unless `Mode::Default`;
otherwise spawn the placing entity at the counter's z, bump the counter by
`0.01`, and set `Mode::Create`. -/
def handle_tool_event (t : Tool) (s : GameState) : GameState :=
  match s.mode with
  | .default =>
      { mode := .create
        zCounter := s.zCounter + 1/100
        entities := s.entities ++ [spawned t s.zCounter] }
  | _ => s

/-- The `Command::Scaled` effect on one entity of the `With<Modifying>` query:
remove `Modifying`, insert `Collider::cuboid(0.5, 0.5)` (plus `Velocity` and a
kinematic `RigidBody`, not tracked here). -/
def commit (e : GEntity) : GEntity :=
  if e.modifying.isSome then
    { e with modifying := none, collider := some (.cuboid (1/2) (1/2)) }
  else e

/-- The `Command::Created { position }` effect on one entity of the
`With<Modifying>` query: replace `Modifying` by `Scaling { start := position }`. -/
def beginScaling (pos : Q2) (e : GEntity) : GEntity :=
  if e.modifying.isSome then { e with modifying := some (.scaling pos) } else e

/-- The `Mode::Default` branch of `handle_left_click` combined with the
`Command::Move` / `Command::Rotate` arms of `handle_command_events`: an entity
hovered at `Center` starts `Moving`, one hovered at `Edge` starts `Rotating`,
anything else is untouched. -/
def beginMoveRotate (pos : Q2) (e : GEntity) : GEntity :=
  match e.hover with
  | some .center => { e with modifying := some (.moving pos) }
  | some .edge => { e with modifying := some (.rotating pos) }
  | _ => e

/-- Whether a left click on this entity emits a `Move` or `Rotate` command. -/
def hoverCenterEdge (e : GEntity) : Bool :=
  match e.hover with
  | some .center => true
  | some .edge => true
  | _ => false

/-- A left click and the command events it produces, drained the same tick:
in `Mode::Default` emit `Move`/`Rotate` per hovered entity (`Mode::Modify` is
inserted per processed event, so the mode changes only if some event fired);
in `Mode::Create` emit `Created` (→ `Scaling`, `Mode::Modify`); in
`Mode::Modify` emit `Scaled` (→ commit, `Mode::Default`). -/
def left_click (pos : Q2) (s : GameState) : GameState :=
  match s.mode with
  | .default =>
      { s with
        entities := s.entities.map (beginMoveRotate pos)
        mode := if s.entities.any hoverCenterEdge then .modify else .default }
  | .create => { s with entities := s.entities.map (beginScaling pos), mode := .modify }
  | .modify => { s with entities := s.entities.map commit, mode := .default }

/-- `set_hover` as a machine step.  Its query is `With<Collider>`, so only
entities with a collider are scanned and rewritten; `contains i` abstracts
rapier's point-intersection hit set, and `hp` the geometric classification of
the selected entity (computed by the transform model below, irrelevant to the
machine invariants).  The selected entity gets `Some hp`; every other query
row gets `None`; rows outside the query keep their hover value.
`hoverWrite` is the body of the second loop for one row. -/
def hoverWrite (sel : Option Nat) (hp : HoverPosition) (i : Nat) (e : GEntity) : GEntity :=
  if e.collider.isSome then
    { e with hover := if sel = some i then some hp else none }
  else e

def set_hover_step (contains : Nat → Bool) (hp : HoverPosition) (s : GameState) : GameState :=
  { s with
    entities := mapIdxQ
      (hoverWrite (selectTop (fun i e => contains i && e.collider.isSome) GEntity.z s.entities)
        hp)
      0 s.entities }

/-- The Escape branch of `handle_input`: despawn every entity of the
`With<Modifying>` query and insert `Mode::Default`. -/
def handle_escape (s : GameState) : GameState :=
  { s with entities := s.entities.filter (fun e => e.modifying == none), mode := .default }

/-- `despawn_outside_world` restricted to shape entities: entities without
`Modifying` that are out of bounds (`rm i` abstracts the bounds test on the
entity's transform) are despawned. -/
def despawn_step (rm : Nat → Bool) (s : GameState) : GameState :=
  { s with entities := filterIdxQ (fun i e => !(rm i && e.modifying == none)) 0 s.entities }

/-- One scheduler step: any of the state-mutating handlers with any inputs. -/
inductive Step : GameState → GameState → Prop where
  | tool (t : Tool) (s : GameState) : Step s (handle_tool_event t s)
  | click (pos : Q2) (s : GameState) : Step s (left_click pos s)
  | hover (contains : Nat → Bool) (hp : HoverPosition) (s : GameState) :
      Step s (set_hover_step contains hp s)
  | escape (s : GameState) : Step s (handle_escape s)
  | sweep (rm : Nat → Bool) (s : GameState) : Step s (despawn_step rm s)

/-- States reachable from startup. -/
inductive Reachable : GameState → Prop where
  | init : Reachable GameState.init
  | step {s t : GameState} : Reachable s → Step s t → Reachable t

/-- `Modifying` states during which the entity has not yet been given (or,
for `Created`, has never had) a collider: the creation path. -/
def isPlacingOrScaling : Option Modifying → Bool
  | some .placing => true
  | some (.scaling _) => true
  | _ => false

/-- The inductive invariant of the machine:
1. an entity lacks a collider exactly while `Placing`/`Scaling`;
2. in `Mode::Default` no entity carries `Modifying`;
3. an entity without a collider has no hover position (it is outside the
   `set_hover` query, whose rows are `With<Collider>`);
4. in `Mode::Create` the only `Modifying` value present is `Placing`. -/
def Inv (s : GameState) : Prop :=
  (∀ e ∈ s.entities, (e.collider = none ↔ isPlacingOrScaling e.modifying = true))
  ∧ (s.mode = .default → ∀ e ∈ s.entities, e.modifying = none)
  ∧ (∀ e ∈ s.entities, e.collider = none → e.hover = none)
  ∧ (s.mode = .create → ∀ e ∈ s.entities, e.modifying = none ∨ e.modifying = some .placing)


/-- The state right after pressing `B` at startup: `Mode::Create` with one
placing box entity. -/
def createState : GameState := handle_tool_event Tool.box GameState.init

/-- A concrete reachable state: spawn a box (`B`), click to start scaling,
click to commit, hover it (rapier reports a hit), then click its `Center`
region.  The box then carries `Modifying::Moving` while keeping its collider. -/
def cexState : GameState :=
  left_click ⟨3, 4⟩
    (set_hover_step (fun _ => true) HoverPosition.center
      (left_click ⟨2, 2⟩ (left_click ⟨1, 1⟩ (handle_tool_event Tool.box GameState.init))))

/-! ### Hover geometry (`set_hover` in `main.rs`)

The selected entity's `GlobalTransform` is a 2D translation-rotation-scale
(`compute_matrix()` builds `T * R * S`); `set_hover` applies the matrix
inverse to the pointer (extended with `z = 0`, which the Z-rotation leaves in
plane) and classifies the local point with the `0.45` thresholds.  The
rotation is represented by its cosine/sine pair `(c, s)`; for a transform
coming from `Quat::from_rotation_z` these satisfy `c² + s² = 1`. -/

/-- A 2D world transform: translation `t`, rotation `(c, s)`, scale `(sx, sy)`. -/
structure XT where
  t : Q2
  c : ℚ
  s : ℚ
  sx : ℚ
  sy : ℚ
  deriving DecidableEq, Repr

/-- Determinant of the linear part of `compute_matrix()`, columns
`(c·sx, s·sx)` and `(-s·sy, c·sy)`. -/
def XT.det (xt : XT) : ℚ :=
  (xt.c * xt.sx) * (xt.c * xt.sy) - (-xt.s * xt.sy) * (xt.s * xt.sx)

/-- The forward world transform applied to a local point (the action of
`compute_matrix()` on the plane). -/
def worldPoint (xt : XT) (l : Q2) : Q2 :=
  ⟨xt.c * xt.sx * l.x - xt.s * xt.sy * l.y + xt.t.x,
   xt.s * xt.sx * l.x + xt.c * xt.sy * l.y + xt.t.y⟩

/-- `compute_matrix().inverse().transform_point3(position.extend(0.))`: the
adjugate-over-determinant inverse of the linear part applied to `p - t`. -/
def localPoint (xt : XT) (p : Q2) : Q2 :=
  ⟨((xt.c * xt.sy) * (p.x - xt.t.x) + (xt.s * xt.sy) * (p.y - xt.t.y)) / xt.det,
   ((-xt.s * xt.sx) * (p.x - xt.t.x) + (xt.c * xt.sx) * (p.y - xt.t.y)) / xt.det⟩

/-- The region classification of `set_hover`: thresholds `|x| < 0.45`,
`|y| < 0.45`; both ⇒ `Center`, one ⇒ `Edge`, neither ⇒ `Corner`. -/
def classify (l : Q2) : HoverPosition :=
  if |l.x| < 9/20 ∧ |l.y| < 9/20 then .center
  else if |l.x| < 9/20 ∨ |l.y| < 9/20 then .edge
  else .corner

/-- A row of `set_hover`'s query `(&mut Hoverable, Entity, &GlobalTransform)
With<Collider>`: every row has a collider. -/
structure HRow where
  z : ℚ
  xt : XT
  hover : Option HoverPosition
  deriving DecidableEq, Repr

/-- One run of `set_hover` over its query: `contains i` is rapier's
point-intersection result for row `i`; the highest-`z` hit row gets the
classification of the inverse-transformed pointer, all other rows get `None`;
`hoverClassifyWrite` is the body of the second loop for one row. -/
def hoverClassifyWrite (pos : Q2) (sel : Option Nat) (i : Nat) (r : HRow) : HRow :=
  { r with hover := if sel = some i then some (classify (localPoint r.xt pos)) else none }

def set_hover (pos : Q2) (contains : Nat → Bool) (rows : List HRow) : List HRow :=
  mapIdxQ (hoverClassifyWrite pos (selectTop (fun i _ => contains i) HRow.z rows)) 0 rows

/-! ### Rotation step (`rotate` in `main.rs`)

For every entity with `Modifying::Rotating`, the system sets
`rotation = Quat::from_rotation_z(-(pos - translation).angle_between(Vec2::new(1.0, 0.0)))`.
glam's `Vec2::angle_between(u, v)` is the signed angle
`atan2(perp_dot(u, v), dot(u, v))`, modelled here as the argument of the
complex number `dot + i·perp_dot`.  Angles are real numbers. -/

/-- `Vec2::dot`. -/
def dotQ (u v : Q2) : ℚ := u.x * v.x + u.y * v.y

/-- `Vec2::perp_dot`. -/
def perpDotQ (u v : Q2) : ℚ := u.x * v.y - u.y * v.x

/-- glam's signed `Vec2::angle_between`. -/
noncomputable def angle_between (u v : Q2) : ℝ :=
  Complex.arg ⟨(dotQ u v : ℝ), (perpDotQ u v : ℝ)⟩

/-- The angle passed to `Quat::from_rotation_z` by the `rotate` system. -/
noncomputable def rotate_angle (pos t : Q2) : ℝ :=
  -(angle_between ⟨pos.x - t.x, pos.y - t.y⟩ ⟨1, 0⟩)

/-- A quaternion with real components. -/
structure RQuat where
  x : ℝ
  y : ℝ
  z : ℝ
  w : ℝ

/-- `Quat::from_rotation_z(θ) = (0, 0, sin(θ/2), cos(θ/2))`. -/
noncomputable def from_rotation_z (θ : ℝ) : RQuat :=
  ⟨0, 0, Real.sin (θ / 2), Real.cos (θ / 2)⟩

/-- The translation/rotation part of a `Transform`, as mutated by `rotate`. -/
structure RTransform where
  translation : Q2
  rotation : RQuat

/-- One entity's update under the `rotate` system. -/
noncomputable def rotate_step (pos : Q2) (tr : RTransform) (m : Modifying) : RTransform :=
  match m with
  | .rotating _ => { tr with rotation := from_rotation_z (rotate_angle pos tr.translation) }
  | _ => tr

/-! ## Theorems -/

/-- Survival characterization for the bounds sweep. -/
theorem mem_despawn_outside_world (width height : ℚ) (es : List WEntity) (e : WEntity) :
    e ∈ despawn_outside_world (some (width, height)) es ↔
      e ∈ es ∧ ¬(e.modifying = none ∧ outside_world width height e.translation = true) := by
  simp only [despawn_outside_world, List.mem_filter, Bool.not_eq_true', Bool.and_eq_false_imp,
    beq_iff_eq]
  constructor
  · rintro ⟨hm, h⟩
    refine ⟨hm, ?_⟩
    rintro ⟨h1, h2⟩
    simp [h1, h2] at h
  · rintro ⟨hm, h⟩
    refine ⟨hm, ?_⟩
    intro h1
    by_contra h2
    exact h ⟨h1, by simpa using h2⟩

theorem length_mapIdxQ (f : Nat → α → α) (i : Nat) (l : List α) :
    (mapIdxQ f i l).length = l.length := by
  induction l generalizing i with
  | nil => rfl
  | cons a as ih => simp [mapIdxQ, ih]

theorem get_mapIdxQ (f : Nat → α → α) (i : Nat) (l : List α) (k : Nat)
    (hk : k < (mapIdxQ f i l).length) (hk2 : k < l.length) :
    (mapIdxQ f i l).get ⟨k, hk⟩ = f (i + k) (l.get ⟨k, hk2⟩) := by
  induction l generalizing i k with
  | nil => exact absurd hk2 (by simp)
  | cons a as ih =>
      cases k with
      | zero => rfl
      | succ n =>
          have hn : n < (mapIdxQ f (i + 1) as).length := by
            simpa [mapIdxQ] using hk
          have hn2 : n < as.length := by simpa using hk2
          have := ih (i + 1) n hn hn2
          simpa [mapIdxQ, List.get, Nat.add_assoc, Nat.add_comm 1 n] using this

theorem mem_filterIdxQ (p : Nat → α → Bool) (i : Nat) (l : List α) (a : α) :
    a ∈ filterIdxQ p i l → a ∈ l := by
  induction l generalizing i with
  | nil => simp [filterIdxQ]
  | cons b bs ih =>
      intro h
      unfold filterIdxQ at h
      by_cases hb : p i b = true
      · rw [if_pos hb] at h
        rcases List.mem_cons.mp h with h | h
        · exact h ▸ List.mem_cons_self _ _
        · exact List.mem_cons_of_mem _ (ih (i + 1) h)
      · rw [if_neg hb] at h
        exact List.mem_cons_of_mem _ (ih (i + 1) h)

theorem mem_mapIdxQ (f : Nat → α → α) (i : Nat) (l : List α) (a : α) :
    a ∈ mapIdxQ f i l → ∃ k, ∃ hk : k < l.length, a = f (i + k) (l.get ⟨k, hk⟩) := by
  induction l generalizing i with
  | nil => simp [mapIdxQ]
  | cons b bs ih =>
      intro h
      rcases List.mem_cons.mp h with h | h
      · exact ⟨0, by simp, by simpa using h⟩
      · rcases ih (i + 1) h with ⟨k, hk, hEq⟩
        refine ⟨k + 1, Nat.succ_lt_succ hk, ?_⟩
        have hidx : i + (k + 1) = (i + 1) + k := by omega
        rw [hidx]
        simpa [List.get] using hEq

theorem beginMoveRotate_collider (pos : Q2) (e : GEntity) :
    (beginMoveRotate pos e).collider = e.collider := by
  cases hh : e.hover with
  | none => simp [beginMoveRotate, hh]
  | some hp => cases hp <;> simp [beginMoveRotate, hh]

theorem beginMoveRotate_hover (pos : Q2) (e : GEntity) :
    (beginMoveRotate pos e).hover = e.hover := by
  cases hh : e.hover with
  | none => simp [beginMoveRotate, hh]
  | some hp => cases hp <;> simp [beginMoveRotate, hh]

theorem beginMoveRotate_eq_self (pos : Q2) (e : GEntity) (h : hoverCenterEdge e = false) :
    beginMoveRotate pos e = e := by
  cases hh : e.hover with
  | none => simp [beginMoveRotate, hh]
  | some hp =>
      cases hp with
      | center => simp [hoverCenterEdge, hh] at h
      | edge => simp [hoverCenterEdge, hh] at h
      | corner => simp [beginMoveRotate, hh]

theorem beginScaling_collider (pos : Q2) (e : GEntity) :
    (beginScaling pos e).collider = e.collider := by
  by_cases h : e.modifying.isSome <;> simp [beginScaling, h]

theorem beginScaling_hover (pos : Q2) (e : GEntity) :
    (beginScaling pos e).hover = e.hover := by
  by_cases h : e.modifying.isSome <;> simp [beginScaling, h]

theorem beginScaling_eq_self (pos : Q2) (e : GEntity) (h : e.modifying = none) :
    beginScaling pos e = e := by
  simp [beginScaling, h]

theorem commit_modifying (e : GEntity) : (commit e).modifying = none := by
  by_cases h : e.modifying.isSome
  · simp [commit, h]
  · simp [commit, h]
    exact Option.not_isSome_iff_eq_none.mp h

theorem commit_hover (e : GEntity) : (commit e).hover = e.hover := by
  by_cases h : e.modifying.isSome <;> simp [commit, h]

theorem commit_eq_self (e : GEntity) (h : e.modifying = none) : commit e = e := by
  simp [commit, h]

theorem inv_init : Inv GameState.init := by
  refine ⟨?_, ?_, ?_, ?_⟩ <;> simp [GameState.init]

theorem inv_handle_tool_event (t : Tool) (s : GameState) (h : Inv s) :
    Inv (handle_tool_event t s) := by
  obtain ⟨h1, h2, h3, h4⟩ := h
  cases hm : s.mode with
  | default =>
      simp only [handle_tool_event, hm]
      refine ⟨?_, ?_, ?_, ?_⟩
      · intro e he
        rcases List.mem_append.mp he with he | he
        · exact h1 e he
        · have heq : e = spawned t s.zCounter := by simpa using he
          subst heq
          cases t <;> simp [spawned, isPlacingOrScaling]
      · intro hd; simp at hd
      · intro e he
        rcases List.mem_append.mp he with he | he
        · exact h3 e he
        · have heq : e = spawned t s.zCounter := by simpa using he
          subst heq
          cases t <;> simp [spawned]
      · intro _ e he
        rcases List.mem_append.mp he with he | he
        · exact Or.inl (h2 hm e he)
        · have heq : e = spawned t s.zCounter := by simpa using he
          subst heq
          cases t <;> simp [spawned]
  | create =>
      have hs : handle_tool_event t s = s := by simp [handle_tool_event, hm]
      rw [hs]; exact ⟨h1, h2, h3, h4⟩
  | modify =>
      have hs : handle_tool_event t s = s := by simp [handle_tool_event, hm]
      rw [hs]; exact ⟨h1, h2, h3, h4⟩

theorem inv_left_click (pos : Q2) (s : GameState) (h : Inv s) : Inv (left_click pos s) := by
  obtain ⟨h1, h2, h3, h4⟩ := h
  cases hm : s.mode with
  | default =>
      simp only [left_click, hm]
      refine ⟨?_, ?_, ?_, ?_⟩
      · intro e he
        rcases List.mem_map.mp he with ⟨a, ha, rfl⟩
        cases hh : a.hover with
        | none => simpa [beginMoveRotate, hh] using h1 a ha
        | some hp =>
            have hcol : ¬(a.collider = none) := by
              intro hc
              have hn := h3 a ha hc
              rw [hn] at hh
              simp at hh
            cases hp with
            | center => simpa [beginMoveRotate, hh, isPlacingOrScaling] using hcol
            | edge => simpa [beginMoveRotate, hh, isPlacingOrScaling] using hcol
            | corner => simpa [beginMoveRotate, hh] using h1 a ha
      · intro hd
        by_cases hany : s.entities.any hoverCenterEdge = true
        · rw [if_pos hany] at hd; simp at hd
        · have hfa := List.any_eq_false.mp (by simpa using hany)
          intro e he
          rcases List.mem_map.mp he with ⟨a, ha, rfl⟩
          rw [beginMoveRotate_eq_self pos a (by simpa using hfa a ha)]
          exact h2 hm a ha
      · intro e he hc
        rcases List.mem_map.mp he with ⟨a, ha, rfl⟩
        rw [beginMoveRotate_hover]
        exact h3 a ha (by rw [beginMoveRotate_collider] at hc; exact hc)
      · intro hd
        by_cases hany : s.entities.any hoverCenterEdge = true
        · rw [if_pos hany] at hd; simp at hd
        · rw [if_neg hany] at hd; simp at hd
  | create =>
      have hps := h4 hm
      simp only [left_click, hm]
      refine ⟨?_, ?_, ?_, ?_⟩
      · intro e he
        rcases List.mem_map.mp he with ⟨a, ha, rfl⟩
        rcases hps a ha with ha2 | ha2
        · rw [beginScaling_eq_self pos a ha2]; exact h1 a ha
        · have hcol : a.collider = none := (h1 a ha).mpr (by simp [ha2, isPlacingOrScaling])
          simp [beginScaling, ha2, isPlacingOrScaling, hcol]
      · intro hd; simp at hd
      · intro e he hc
        rcases List.mem_map.mp he with ⟨a, ha, rfl⟩
        rw [beginScaling_hover]
        exact h3 a ha (by rw [beginScaling_collider] at hc; exact hc)
      · intro hd; simp at hd
  | modify =>
      simp only [left_click, hm]
      refine ⟨?_, ?_, ?_, ?_⟩
      · intro e he
        rcases List.mem_map.mp he with ⟨a, ha, rfl⟩
        by_cases hma : a.modifying.isSome
        · simp [commit, hma, isPlacingOrScaling]
        · rw [commit_eq_self a (Option.not_isSome_iff_eq_none.mp hma)]
          exact h1 a ha
      · intro _ e he
        rcases List.mem_map.mp he with ⟨a, ha, rfl⟩
        exact commit_modifying a
      · intro e he hc
        rcases List.mem_map.mp he with ⟨a, ha, rfl⟩
        rw [commit_hover]
        refine h3 a ha ?_
        by_cases hma : a.modifying.isSome
        · simp [commit, hma] at hc
        · rw [commit_eq_self a (Option.not_isSome_iff_eq_none.mp hma)] at hc; exact hc
      · intro hd; simp at hd

theorem inv_set_hover_step (contains : Nat → Bool) (hp : HoverPosition) (s : GameState)
    (h : Inv s) : Inv (set_hover_step contains hp s) := by
  obtain ⟨h1, h2, h3, h4⟩ := h
  simp only [set_hover_step]
  refine ⟨?_, ?_, ?_, ?_⟩
  · intro e he
    rcases mem_mapIdxQ _ _ _ _ he with ⟨k, hk, rfl⟩
    have hmem : s.entities.get ⟨k, hk⟩ ∈ s.entities := List.get_mem s.entities k hk
    set a := s.entities.get ⟨k, hk⟩ with ha
    by_cases hc : a.collider.isSome = true <;>
      simpa [hoverWrite, hc] using h1 a hmem
  · intro hd e he
    rcases mem_mapIdxQ _ _ _ _ he with ⟨k, hk, rfl⟩
    have hmem : s.entities.get ⟨k, hk⟩ ∈ s.entities := List.get_mem s.entities k hk
    set a := s.entities.get ⟨k, hk⟩ with ha
    by_cases hc : a.collider.isSome = true <;>
      simpa [hoverWrite, hc] using h2 hd a hmem
  · intro e he
    rcases mem_mapIdxQ _ _ _ _ he with ⟨k, hk, rfl⟩
    have hmem : s.entities.get ⟨k, hk⟩ ∈ s.entities := List.get_mem s.entities k hk
    set a := s.entities.get ⟨k, hk⟩ with ha
    by_cases hc : a.collider.isSome = true
    · intro hcn
      simp [hoverWrite, hc] at hcn
      exact absurd hcn (Option.isSome_iff_ne_none.mp hc)
    · simpa [hoverWrite, hc] using h3 a hmem
  · intro hd e he
    rcases mem_mapIdxQ _ _ _ _ he with ⟨k, hk, rfl⟩
    have hmem : s.entities.get ⟨k, hk⟩ ∈ s.entities := List.get_mem s.entities k hk
    set a := s.entities.get ⟨k, hk⟩ with ha
    by_cases hc : a.collider.isSome = true <;>
      simpa [hoverWrite, hc] using h4 hd a hmem

theorem inv_handle_escape (s : GameState) (h : Inv s) : Inv (handle_escape s) := by
  obtain ⟨h1, h2, h3, h4⟩ := h
  simp only [handle_escape]
  refine ⟨?_, ?_, ?_, ?_⟩
  · intro e he; exact h1 e (List.mem_of_mem_filter he)
  · intro _ e he
    have := List.of_mem_filter he
    simpa using this
  · intro e he; exact h3 e (List.mem_of_mem_filter he)
  · intro hd; simp at hd

theorem inv_despawn_step (rm : Nat → Bool) (s : GameState) (h : Inv s) :
    Inv (despawn_step rm s) := by
  obtain ⟨h1, h2, h3, h4⟩ := h
  simp only [despawn_step]
  refine ⟨?_, ?_, ?_, ?_⟩
  · intro e he; exact h1 e (mem_filterIdxQ _ _ _ _ he)
  · intro hd e he; exact h2 hd e (mem_filterIdxQ _ _ _ _ he)
  · intro e he; exact h3 e (mem_filterIdxQ _ _ _ _ he)
  · intro hd e he; exact h4 hd e (mem_filterIdxQ _ _ _ _ he)

/-- The machine invariant holds in every reachable state. -/
theorem inv_reachable {s : GameState} (h : Reachable s) : Inv s := by
  induction h with
  | init => exact inv_init
  | step _ hs ih =>
      cases hs with
      | tool t _ => exact inv_handle_tool_event t _ ih
      | click pos _ => exact inv_left_click pos _ ih
      | hover contains hp _ => exact inv_set_hover_step contains hp _ ih
      | escape _ => exact inv_handle_escape _ ih
      | sweep rm _ => exact inv_despawn_step rm _ ih

theorem smAux_acc_or (cand : Nat → α → Bool) (key : α → ℚ) (l : List α) (i : Nat)
    (acc : Option (Nat × ℚ)) :
    smAux cand key l i acc = acc
    ∨ ∃ k, ∃ hk : k < l.length,
        smAux cand key l i acc = some (i + k, key (l.get ⟨k, hk⟩))
        ∧ cand (i + k) (l.get ⟨k, hk⟩) = true := by
  induction l generalizing i acc with
  | nil => exact Or.inl rfl
  | cons a as ih =>
      by_cases hc : (cand i a && betterZ acc (key a)) = true
      · rcases ih (i + 1) (some (i, key a)) with h | ⟨k, hk, hEq, hcand⟩
        · have hcp : cand i a = true ∧ betterZ acc (key a) = true := by simpa using hc
          refine Or.inr ⟨0, by simp, ?_, ?_⟩
          · simpa [smAux, hc] using h
          · simpa using hcp.1
        · refine Or.inr ⟨k + 1, Nat.succ_lt_succ hk, ?_, ?_⟩
          · have hidx : i + (k + 1) = (i + 1) + k := by omega
            rw [hidx]
            simpa [smAux, hc, List.get] using hEq
          · have hidx : i + (k + 1) = (i + 1) + k := by omega
            rw [hidx]
            simpa [List.get] using hcand
      · rcases ih (i + 1) acc with h | ⟨k, hk, hEq, hcand⟩
        · exact Or.inl (by simpa [smAux, hc] using h)
        · refine Or.inr ⟨k + 1, Nat.succ_lt_succ hk, ?_, ?_⟩
          · have hidx : i + (k + 1) = (i + 1) + k := by omega
            rw [hidx]
            simpa [smAux, hc, List.get] using hEq
          · have hidx : i + (k + 1) = (i + 1) + k := by omega
            rw [hidx]
            simpa [List.get] using hcand

theorem smAux_isSome (cand : Nat → α → Bool) (key : α → ℚ) (l : List α) (i : Nat)
    (acc : Option (Nat × ℚ))
    (h : acc.isSome = true ∨ ∃ k, ∃ hk : k < l.length, cand (i + k) (l.get ⟨k, hk⟩) = true) :
    (smAux cand key l i acc).isSome = true := by
  induction l generalizing i acc with
  | nil =>
      rcases h with h | ⟨k, hk, _⟩
      · exact h
      · exact absurd hk (by simp)
  | cons a as ih =>
      by_cases hc : (cand i a && betterZ acc (key a)) = true
      · have : (smAux cand key as (i + 1) (some (i, key a))).isSome = true :=
          ih (i + 1) (some (i, key a)) (Or.inl rfl)
        simpa [smAux, hc] using this
      · have hnext : acc.isSome = true
            ∨ ∃ k, ∃ hk : k < as.length, cand ((i + 1) + k) (as.get ⟨k, hk⟩) = true := by
          rcases h with h | ⟨k, hk, hcand⟩
          · exact Or.inl h
          · cases k with
            | zero =>
                have hca : cand i a = true := by simpa using hcand
                cases hacc : acc with
                | none => exact absurd (by simp [hca, hacc, betterZ]) hc
                | some p => exact Or.inl (by simp [hacc])
            | succ k2 =>
                refine Or.inr ⟨k2, by simpa using Nat.lt_of_succ_lt_succ hk, ?_⟩
                have hidx : (i + 1) + k2 = i + (k2 + 1) := by omega
                rw [hidx]
                simpa [List.get] using hcand
        have := ih (i + 1) acc hnext
        simpa [smAux, hc] using this

theorem smAux_max (cand : Nat → α → Bool) (key : α → ℚ) (l : List α) (i : Nat)
    (acc : Option (Nat × ℚ)) (j : Nat) (z : ℚ)
    (hEq : smAux cand key l i acc = some (j, z)) :
    (∀ k, ∀ hk : k < l.length, cand (i + k) (l.get ⟨k, hk⟩) = true → key (l.get ⟨k, hk⟩) ≤ z)
    ∧ (∀ j2 z2, acc = some (j2, z2) → z2 ≤ z) := by
  induction l generalizing i acc with
  | nil =>
      refine ⟨?_, ?_⟩
      · intro k hk
        exact absurd hk (by simp)
      · intro j2 z2 ha
        rw [ha] at hEq
        have : z2 = z := by simpa [smAux] using (congrArg (Option.map Prod.snd) hEq)
        exact this.le
  | cons a as ih =>
      by_cases hc : (cand i a && betterZ acc (key a)) = true
      · have hEq2 : smAux cand key as (i + 1) (some (i, key a)) = some (j, z) := by
          simpa [smAux, hc] using hEq
        have IH := ih (i + 1) (some (i, key a)) hEq2
        refine ⟨?_, ?_⟩
        · intro k hk hcand
          cases k with
          | zero => simpa using IH.2 i (key a) rfl
          | succ k2 =>
              have hk2 : k2 < as.length := by simpa using Nat.lt_of_succ_lt_succ hk
              have hidx : i + (k2 + 1) = (i + 1) + k2 := by omega
              have := IH.1 k2 hk2 (by rw [← hidx]; simpa [List.get] using hcand)
              simpa [List.get] using this
        · intro j2 z2 ha
          have hcp : cand i a = true ∧ betterZ acc (key a) = true := by simpa using hc
          have hb : betterZ acc (key a) = true := hcp.2
          rw [ha] at hb
          have hlt : z2 < key a := by simpa [betterZ] using hb
          exact le_of_lt (lt_of_lt_of_le hlt (IH.2 i (key a) rfl))
      · have hEq2 : smAux cand key as (i + 1) acc = some (j, z) := by
          simpa [smAux, hc] using hEq
        have IH := ih (i + 1) acc hEq2
        refine ⟨?_, ?_⟩
        · intro k hk hcand
          cases k with
          | zero =>
              have hca : cand i a = true := by simpa using hcand
              have hbf : betterZ acc (key a) = false := by
                cases hb : betterZ acc (key a)
                · rfl
                · exact absurd (by simp [hca, hb]) hc
              cases hacc : acc with
              | none => rw [hacc] at hbf; simp [betterZ] at hbf
              | some p =>
                  rw [hacc] at hbf
                  have hle : key a ≤ p.2 := by simpa [betterZ, not_lt] using hbf
                  have hp : acc = some (p.1, p.2) := by rw [hacc]
                  simpa using le_trans hle (IH.2 p.1 p.2 hp)
          | succ k2 =>
              have hk2 : k2 < as.length := by simpa using Nat.lt_of_succ_lt_succ hk
              have hidx : i + (k2 + 1) = (i + 1) + k2 := by omega
              have := IH.1 k2 hk2 (by rw [← hidx]; simpa [List.get] using hcand)
              simpa [List.get] using this
        · exact IH.2

theorem selectTop_spec (cand : Nat → α → Bool) (key : α → ℚ) (l : List α) (j : Nat)
    (hEq : selectTop cand key l = some j) :
    ∃ hj : j < l.length,
      cand j (l.get ⟨j, hj⟩) = true
      ∧ ∀ k, ∀ hk : k < l.length, cand k (l.get ⟨k, hk⟩) = true →
          key (l.get ⟨k, hk⟩) ≤ key (l.get ⟨j, hj⟩) := by
  unfold selectTop at hEq
  rcases smAux_acc_or cand key l 0 none with h | ⟨k, hk, hEq2, hcand⟩
  · rw [h] at hEq
    simp at hEq
  · rw [hEq2] at hEq
    have hkj : k = j := by simpa using hEq
    subst hkj
    refine ⟨hk, by simpa using hcand, ?_⟩
    intro k2 hk2 hcand2
    exact (smAux_max cand key l 0 none (0 + k) (key (l.get ⟨k, hk⟩)) hEq2).1 k2 hk2
      (by simpa using hcand2)

theorem selectTop_isSome (cand : Nat → α → Bool) (key : α → ℚ) (l : List α)
    (h : ∃ k, ∃ hk : k < l.length, cand k (l.get ⟨k, hk⟩) = true) :
    (selectTop cand key l).isSome = true := by
  unfold selectTop
  rcases h with ⟨k, hk, hcand⟩
  have := smAux_isSome cand key l 0 none (Or.inr ⟨k, hk, by simpa using hcand⟩)
  cases hsm : smAux cand key l 0 none with
  | none => rw [hsm] at this; simp at this
  | some p => simp [hsm]

theorem countP_zero_or_one (p : α → Bool) (l : List α) (i0 : Nat)
    (h : ∀ k, ∀ hk : k < l.length, p (l.get ⟨k, hk⟩) = true → k = i0) :
    l.countP p = 0 ∨ l.countP p = 1 := by
  induction l generalizing i0 with
  | nil => exact Or.inl rfl
  | cons a as ih =>
      by_cases hpa : p a = true
      · have h0 : 0 = i0 := h 0 (by simp) (by simpa using hpa)
        have hz : as.countP p = 0 := by
          rw [List.countP_eq_zero]
          intro x hx hpx
          rcases List.mem_iff_get.mp hx with ⟨⟨k, hk⟩, rfl⟩
          have := h (k + 1) (by simpa using Nat.succ_lt_succ hk) (by simpa [List.get] using hpx)
          omega
        refine Or.inr ?_
        simp [List.countP_cons, hpa, hz]
      · have hnext : ∀ k, ∀ hk : k < as.length, p (as.get ⟨k, hk⟩) = true → k = i0 - 1 := by
          intro k hk hpk
          have := h (k + 1) (by simpa using Nat.succ_lt_succ hk) (by simpa [List.get] using hpk)
          omega
        rcases ih (i0 - 1) hnext with h0 | h1
        · exact Or.inl (by simp [List.countP_cons, hpa, h0])
        · exact Or.inr (by simp [List.countP_cons, hpa, h1])

theorem smAux_all_false (cand : Nat → α → Bool) (key : α → ℚ) (l : List α) (i : Nat)
    (h : ∀ k a, cand k a = false) : smAux cand key l i none = none := by
  induction l generalizing i with
  | nil => rfl
  | cons a as ih => simpa [smAux, h] using ih (i + 1)

/-! ## Claim theorems -/

/-- C4: for every entity in the `Scaling{start}` sub-state and pointer position
`pos`, after the scaling step the center equals `((pos.x+start.x)/2,
(pos.y+start.y)/2)` and the scale equals `2*|pos - center|` per axis, exactly. -/
theorem scale_symmetry (pos start : Q2) (tr : ScTransform) :
    (scale_step pos tr (.scaling start)).translation
        = ⟨(pos.x + start.x) / 2, (pos.y + start.y) / 2⟩
    ∧ (scale_step pos tr (.scaling start)).scale.x
        = 2 * |pos.x - (scale_step pos tr (.scaling start)).translation.x|
    ∧ (scale_step pos tr (.scaling start)).scale.y
        = 2 * |pos.y - (scale_step pos tr (.scaling start)).translation.y| := by
  refine ⟨rfl, ?_, ?_⟩ <;>
    · show |_ * 2| = 2 * |_|
      rw [abs_mul, abs_two, mul_comm]
      rfl

/-- C2 counterexample: with last tracked position `(5,3)` and the cursor absent
(`cursor_position()` = `None`), the tracker yields `(0,0)`, not the previous
position — `unwrap_or_default()` resets to the origin instead of reusing the
last known position. -/
theorem mouse_position_counterexample :
    calculate_mouse_position ⟨5, 3⟩ none (fun c => some c) = ⟨0, 0⟩
    ∧ calculate_mouse_position ⟨5, 3⟩ none (fun c => some c) ≠ ⟨5, 3⟩ := by
  exact ⟨rfl, by decide⟩

/-- C2 (amended): whenever the window reports no cursor position, the pointer
tracker sets the tracked world position to the default origin `(0,0)` for that
tick, regardless of the previously tracked position. -/
theorem mouse_position_default_when_absent (prev : Q2) (v2w : Q2 → Option Q2) :
    calculate_mouse_position prev none v2w = ⟨0, 0⟩ := rfl

/-- C3 counterexample: with an 800×600 window, a particle at `(500, 0)` has
left the half-extent rectangle `[-400,400]×[-300,300]` (since `400 < 500`),
yet the bounds check keeps it: the code tests against the full resolution. -/
theorem bounds_despawn_counterexample :
    despawn_outside_world (some (800, 600)) [⟨⟨500, 0⟩, none⟩]
        = [(⟨⟨500, 0⟩, none⟩ : WEntity)]
    ∧ (800 / 2 : ℚ) < 500 := by
  exact ⟨by decide, by norm_num⟩

/-- C3 (amended): a particle (an entity without `Modifying`) whose position
exits `[-width,width]×[-height,height]` — the FULL window resolution on each
side, twice the screen half-extents — is removed by the next run of the bounds
check. -/
theorem bounds_despawn_full_window (width height : ℚ) (es : List WEntity) (e : WEntity)
    (he : e ∈ es) (hm : e.modifying = none)
    (ho : outside_world width height e.translation = true) :
    e ∉ despawn_outside_world (some (width, height)) es := by
  intro hmem
  exact ((mem_despawn_outside_world width height es e).mp hmem).2 ⟨hm, ho⟩

/-- Witness for `bounds_despawn_full_window` at a concrete input. -/
theorem bounds_despawn_full_window_witness :
    (⟨⟨900, 0⟩, none⟩ : WEntity)
      ∉ despawn_outside_world (some (800, 600)) [⟨⟨900, 0⟩, none⟩] :=
  bounds_despawn_full_window 800 600 [⟨⟨900, 0⟩, none⟩] ⟨⟨900, 0⟩, none⟩
    (by decide) rfl (by decide)

/-- C10: the bounds sweep applies to every entity lacking `Modifying` (not
only particles) — any such entity out of the full-resolution rectangle is
despawned — while an entity carrying `Modifying` is never despawned by it. -/
theorem bounds_sweep_scope (width height : ℚ) (es : List WEntity) (e : WEntity) (he : e ∈ es) :
    (e.modifying ≠ none → e ∈ despawn_outside_world (some (width, height)) es)
    ∧ (e.modifying = none → outside_world width height e.translation = true →
        e ∉ despawn_outside_world (some (width, height)) es) := by
  constructor
  · intro hm
    exact (mem_despawn_outside_world width height es e).mpr ⟨he, fun h => hm h.1⟩
  · intro hm ho hmem
    exact ((mem_despawn_outside_world width height es e).mp hmem).2 ⟨hm, ho⟩

/-- Witness for `bounds_sweep_scope`: a placing shape at `(900, 0)` (out of
bounds) survives the sweep, while a committed one at the same spot would not. -/
theorem bounds_sweep_scope_witness :
    ((⟨⟨900, 0⟩, some .placing⟩ : WEntity).modifying ≠ none →
      (⟨⟨900, 0⟩, some .placing⟩ : WEntity)
        ∈ despawn_outside_world (some (800, 600)) [⟨⟨900, 0⟩, some .placing⟩])
    ∧ ((⟨⟨900, 0⟩, some .placing⟩ : WEntity).modifying = none →
        outside_world 800 600 (⟨⟨900, 0⟩, some .placing⟩ : WEntity).translation = true →
        (⟨⟨900, 0⟩, some .placing⟩ : WEntity)
          ∉ despawn_outside_world (some (800, 600)) [⟨⟨900, 0⟩, some .placing⟩]) :=
  bounds_sweep_scope 800 600 [⟨⟨900, 0⟩, some .placing⟩] ⟨⟨900, 0⟩, some .placing⟩ (by decide)

theorem cexState_reachable : Reachable cexState :=
  Reachable.step
    (Reachable.step
      (Reachable.step
        (Reachable.step
          (Reachable.step Reachable.init (Step.tool Tool.box GameState.init))
          (Step.click ⟨1, 1⟩ (handle_tool_event Tool.box GameState.init)))
        (Step.click ⟨2, 2⟩ (left_click ⟨1, 1⟩ (handle_tool_event Tool.box GameState.init))))
      (Step.hover (fun _ => true) HoverPosition.center
        (left_click ⟨2, 2⟩ (left_click ⟨1, 1⟩ (handle_tool_event Tool.box GameState.init)))))
    (Step.click ⟨3, 4⟩
      (set_hover_step (fun _ => true) HoverPosition.center
        (left_click ⟨2, 2⟩ (left_click ⟨1, 1⟩ (handle_tool_event Tool.box GameState.init)))))

/-- C1 counterexample: in the reachable state `cexState` (box created,
committed, hovered at `Center`, clicked), the box entity carries
`Modifying::Moving` AND still has its collider: the `Move`/`Rotate` command
handlers insert `Modifying` without removing the collider, so collider
presence is not equivalent to the absence of `Modifying`. -/
theorem collider_modifying_counterexample :
    Reachable cexState
    ∧ ∃ e ∈ cexState.entities, e.collider.isSome = true ∧ e.modifying.isSome = true :=
  ⟨cexState_reachable, by decide⟩

/-- C1 (amended): in every reachable state, an entity lacks a collider exactly
while it is `Placing` or `Scaling` (the creation path); `Moving`/`Rotating`
entities keep their collider.  Committing (`Scaled` on a left click in
`Mode::Modify`) re-adds exactly one collider shape, `Collider::cuboid(0.5, 0.5)`,
to every modifying entity. -/
theorem collider_iff_not_placing_scaling (s : GameState) (hs : Reachable s) :
    (∀ e ∈ s.entities, (e.collider = none ↔ isPlacingOrScaling e.modifying = true))
    ∧ (∀ pos : Q2, s.mode = Mode.modify → ∀ e ∈ s.entities, e.modifying.isSome = true →
        commit e ∈ (left_click pos s).entities
        ∧ (commit e).collider = some (Collider.cuboid (1/2) (1/2))) := by
  refine ⟨(inv_reachable hs).1, ?_⟩
  intro pos hm e he hmod
  constructor
  · have hent : (left_click pos s).entities = s.entities.map commit := by
      simp [left_click, hm]
    rw [hent]
    exact List.mem_map_of_mem commit he
  · simp [commit, hmod]

/-- Witness for `collider_iff_not_placing_scaling` at the concrete reachable
state `cexState` (whose mode is `Modify` with a `Moving` entity). -/
theorem collider_iff_not_placing_scaling_witness :
    (∀ e ∈ cexState.entities, (e.collider = none ↔ isPlacingOrScaling e.modifying = true))
    ∧ (∀ pos : Q2, cexState.mode = Mode.modify →
        ∀ e ∈ cexState.entities, e.modifying.isSome = true →
        commit e ∈ (left_click pos cexState).entities
        ∧ (commit e).collider = some (Collider.cuboid (1/2) (1/2))) :=
  collider_iff_not_placing_scaling cexState cexState_reachable

/-- C7: a tool-activation event is a no-op when the mode is not `Default`;
when the mode is `Default` it appends exactly one new entity, which carries
`Placing` and no collider and sits at z = the current counter, then bumps the
counter and switches the mode to `Create`. -/
theorem tool_activation (t : Tool) (s : GameState) :
    (s.mode ≠ Mode.default → handle_tool_event t s = s)
    ∧ (s.mode = Mode.default →
        (handle_tool_event t s).entities = s.entities ++ [spawned t s.zCounter]
        ∧ (spawned t s.zCounter).modifying = some Modifying.placing
        ∧ (spawned t s.zCounter).collider = none
        ∧ (spawned t s.zCounter).z = s.zCounter
        ∧ (handle_tool_event t s).zCounter = s.zCounter + 1/100
        ∧ (handle_tool_event t s).mode = Mode.create) := by
  constructor
  · intro hne
    cases hm : s.mode with
    | default => exact absurd hm hne
    | create => simp [handle_tool_event, hm]
    | modify => simp [handle_tool_event, hm]
  · intro hm
    refine ⟨?_, ?_, ?_, ?_, ?_, ?_⟩ <;>
      first
        | (cases t <;> rfl)
        | simp [handle_tool_event, hm]

/-- Witness for `tool_activation`: pressing `B` again in `Create` mode does
nothing; pressing `F` at startup spawns the placing force field. -/
theorem tool_activation_witness :
    (handle_tool_event Tool.box createState = createState)
    ∧ ((handle_tool_event Tool.forceField GameState.init).entities
          = GameState.init.entities ++ [spawned Tool.forceField GameState.init.zCounter]
        ∧ (spawned Tool.forceField GameState.init.zCounter).modifying = some Modifying.placing
        ∧ (spawned Tool.forceField GameState.init.zCounter).collider = none
        ∧ (spawned Tool.forceField GameState.init.zCounter).z = GameState.init.zCounter
        ∧ (handle_tool_event Tool.forceField GameState.init).zCounter
            = GameState.init.zCounter + 1/100
        ∧ (handle_tool_event Tool.forceField GameState.init).mode = Mode.create) :=
  ⟨(tool_activation Tool.box createState).1 (by decide),
   (tool_activation Tool.forceField GameState.init).2 rfl⟩

/-- C9: in any reachable state whose mode is `Default`, pressing Escape is a
no-op — the mode stays `Default` and no entity is despawned (the despawn loop
runs over the `With<Modifying>` query, which is empty in `Default` mode). -/
theorem cancel_default_noop (s : GameState) (hs : Reachable s) (hm : s.mode = Mode.default) :
    handle_escape s = s := by
  have h2 := (inv_reachable hs).2.1 hm
  obtain ⟨m, zc, es⟩ := s
  show (⟨Mode.default, zc, es.filter fun e => e.modifying == none⟩ : GameState) = ⟨m, zc, es⟩
  rw [GameState.mk.injEq]
  refine ⟨hm.symm, rfl, ?_⟩
  rw [List.filter_eq_self]
  intro e he
  simpa using h2 e he

/-- Witness for `cancel_default_noop` at the startup state. -/
theorem cancel_default_noop_witness : handle_escape GameState.init = GameState.init :=
  cancel_default_noop GameState.init Reachable.init rfl

/-- C5: after hover resolution, the number of entities with a non-`None`
hover position is zero or one; every non-selected entity has hover `None`;
and if no collider contains the pointer the count is zero. -/
theorem hover_uniqueness (contains : Nat → Bool) (hp : HoverPosition) (s : GameState)
    (hs : Reachable s) :
    ((set_hover_step contains hp s).entities.countP (fun e => e.hover.isSome) = 0
      ∨ (set_hover_step contains hp s).entities.countP (fun e => e.hover.isSome) = 1)
    ∧ (∀ k, ∀ hk : k < (set_hover_step contains hp s).entities.length,
        selectTop (fun i e => contains i && e.collider.isSome) GEntity.z s.entities ≠ some k →
        ((set_hover_step contains hp s).entities.get ⟨k, hk⟩).hover = none)
    ∧ ((∀ i, contains i = false) →
        (set_hover_step contains hp s).entities.countP (fun e => e.hover.isSome) = 0) := by
  have h3 := (inv_reachable hs).2.2.1
  have hlen : (set_hover_step contains hp s).entities.length = s.entities.length :=
    length_mapIdxQ _ 0 s.entities
  have hgetF : ∀ k, ∀ hk : k < (set_hover_step contains hp s).entities.length,
      ∀ hk2 : k < s.entities.length,
      (set_hover_step contains hp s).entities.get ⟨k, hk⟩
        = hoverWrite
            (selectTop (fun i e => contains i && e.collider.isSome) GEntity.z s.entities) hp k
            (s.entities.get ⟨k, hk2⟩) := by
    intro k hk hk2
    have hkm : k < (mapIdxQ
        (hoverWrite (selectTop (fun i e => contains i && e.collider.isSome) GEntity.z s.entities)
          hp)
        0 s.entities).length := by
      rw [length_mapIdxQ]
      exact hk2
    simpa using get_mapIdxQ
      (hoverWrite (selectTop (fun i e => contains i && e.collider.isSome) GEntity.z s.entities)
        hp)
      0 s.entities k hkm hk2
  have hnone : ∀ k, ∀ hk : k < (set_hover_step contains hp s).entities.length,
      selectTop (fun i e => contains i && e.collider.isSome) GEntity.z s.entities ≠ some k →
      ((set_hover_step contains hp s).entities.get ⟨k, hk⟩).hover = none := by
    intro k hk hne
    have hk2 : k < s.entities.length := hlen ▸ hk
    rw [hgetF k hk hk2]
    have hmem : s.entities.get ⟨k, hk2⟩ ∈ s.entities := List.get_mem s.entities k hk2
    set a := s.entities.get ⟨k, hk2⟩ with ha
    by_cases hc : a.collider.isSome = true
    · simp [hoverWrite, hc, hne]
    · simp [hoverWrite, hc]
      exact h3 a hmem (Option.not_isSome_iff_eq_none.mp hc)
  have hcount : ∀ i0 : Nat,
      (∀ k, ∀ hk : k < (set_hover_step contains hp s).entities.length,
        (((set_hover_step contains hp s).entities.get ⟨k, hk⟩).hover.isSome = true) → k = i0) →
      ((set_hover_step contains hp s).entities.countP (fun e => e.hover.isSome) = 0
        ∨ (set_hover_step contains hp s).entities.countP (fun e => e.hover.isSome) = 1) := by
    intro i0 h
    exact countP_zero_or_one _ _ i0 h
  refine ⟨?_, hnone, ?_⟩
  · cases hselv : selectTop (fun i e => contains i && e.collider.isSome) GEntity.z s.entities with
    | none =>
        refine hcount 0 ?_
        intro k hk hsome
        have := hnone k hk (by rw [hselv]; exact fun h => by cases h)
        rw [this] at hsome
        cases hsome
    | some k0 =>
        refine hcount k0 ?_
        intro k hk hsome
        by_contra hne
        have := hnone k hk (by rw [hselv]; intro h; exact hne (Option.some.inj h).symm)
        rw [this] at hsome
        cases hsome
  · intro hall
    have hseln : selectTop (fun i e => contains i && e.collider.isSome) GEntity.z s.entities
        = none := by
      unfold selectTop
      rw [smAux_all_false _ _ _ _ (fun k a => by simp [hall k])]
      rfl
    rw [List.countP_eq_zero]
    intro a ha
    rcases List.mem_iff_get.mp ha with ⟨⟨k, hk⟩, rfl⟩
    have := hnone k hk (by rw [hseln]; exact fun h => by cases h)
    simpa using this

/-- Witness for `hover_uniqueness` at the startup state. -/
theorem hover_uniqueness_witness :
    (((set_hover_step (fun _ => true) HoverPosition.center GameState.init).entities.countP
          (fun e => e.hover.isSome) = 0
      ∨ (set_hover_step (fun _ => true) HoverPosition.center GameState.init).entities.countP
          (fun e => e.hover.isSome) = 1)
    ∧ (∀ k, ∀ hk : k <
          (set_hover_step (fun _ => true) HoverPosition.center GameState.init).entities.length,
        selectTop (fun i e => (fun _ => true) i && e.collider.isSome) GEntity.z
            GameState.init.entities ≠ some k →
        ((set_hover_step (fun _ => true) HoverPosition.center GameState.init).entities.get
            ⟨k, hk⟩).hover = none)
    ∧ ((∀ _i : Nat, (fun _ => true) _i = false) →
        (set_hover_step (fun _ => true) HoverPosition.center GameState.init).entities.countP
          (fun e => e.hover.isSome) = 0)) :=
  hover_uniqueness (fun _ => true) HoverPosition.center GameState.init Reachable.init

/-- C6: when at least one hoverable collider contains the pointer, the hover
resolver selects a hit candidate whose z is maximal among all hit candidates,
gives it the classification of the pointer carried into the entity's local
frame by the inverse of its world transform (`localPoint` inverts `worldPoint`
whenever the transform is invertible), and the classification is `Center` when
both normalized coordinates are below `0.45` in absolute value, `Edge` when
exactly one is, and `Corner` otherwise. -/
theorem hover_classification (pos : Q2) (contains : Nat → Bool) (rows : List HRow)
    (hex : ∃ k, ∃ hk : k < rows.length, contains k = true) :
    (∃ j, ∃ hj : j < rows.length,
      selectTop (fun i _ => contains i) HRow.z rows = some j
      ∧ contains j = true
      ∧ (∀ k, ∀ hk : k < rows.length, contains k = true →
          (rows.get ⟨k, hk⟩).z ≤ (rows.get ⟨j, hj⟩).z)
      ∧ ∀ hj2 : j < (set_hover pos contains rows).length,
          ((set_hover pos contains rows).get ⟨j, hj2⟩).hover
            = some (classify (localPoint (rows.get ⟨j, hj⟩).xt pos)))
    ∧ (∀ l : Q2,
        (classify l = HoverPosition.center ↔ (|l.x| < 9/20 ∧ |l.y| < 9/20))
        ∧ (classify l = HoverPosition.edge ↔
            ((|l.x| < 9/20 ∧ ¬|l.y| < 9/20) ∨ (¬|l.x| < 9/20 ∧ |l.y| < 9/20)))
        ∧ (classify l = HoverPosition.corner ↔ (¬|l.x| < 9/20 ∧ ¬|l.y| < 9/20)))
    ∧ (∀ xt : XT, ∀ q : Q2, xt.det ≠ 0 → worldPoint xt (localPoint xt q) = q) := by
  refine ⟨?_, ?_, ?_⟩
  · have hsome : (selectTop (fun i _ => contains i) HRow.z rows).isSome = true := by
      rcases hex with ⟨k, hk, hc⟩
      exact selectTop_isSome _ _ _ ⟨k, hk, hc⟩
    cases hsel : selectTop (fun i _ => contains i) HRow.z rows with
    | none => rw [hsel] at hsome; cases hsome
    | some j =>
        rcases selectTop_spec _ _ _ j hsel with ⟨hj, hcand, hmax⟩
        refine ⟨j, hj, rfl, hcand, hmax, ?_⟩
        intro hj2
        have hkm : j < (mapIdxQ
            (hoverClassifyWrite pos (selectTop (fun i _ => contains i) HRow.z rows))
            0 rows).length := by
          rw [length_mapIdxQ]
          exact hj
        have h := get_mapIdxQ
          (hoverClassifyWrite pos (selectTop (fun i _ => contains i) HRow.z rows))
          0 rows j hkm hj
        have hrw : (set_hover pos contains rows).get ⟨j, hj2⟩
            = hoverClassifyWrite pos (selectTop (fun i _ => contains i) HRow.z rows) j
                (rows.get ⟨j, hj⟩) := by
          simpa using h
        rw [hrw]
        simp [hoverClassifyWrite, hsel]
  · intro l
    by_cases hx : |l.x| < 9/20 <;> by_cases hy : |l.y| < 9/20 <;>
      simp [classify, hx, hy]
  · intro xt q hdet
    obtain ⟨⟨tx, ty⟩, c, sv, sx, sy⟩ := xt
    obtain ⟨qx, qy⟩ := q
    simp only [XT.det] at hdet
    have hd2 : c ^ 2 * sx * sy + sx * sy * sv ^ 2 ≠ 0 := fun h => hdet (by linear_combination h)
    simp only [worldPoint, localPoint, XT.det, Q2.mk.injEq]
    constructor
    · field_simp [hd2]
      linear_combination (qx - tx) * mul_inv_cancel₀ hd2
    · field_simp [hd2]
      linear_combination (qy - ty) * mul_inv_cancel₀ hd2

/-- Witness for `hover_classification` at a single hit unit row. -/
theorem hover_classification_witness :
    (∃ j, ∃ hj : j < ([⟨0, ⟨⟨0, 0⟩, 1, 0, 1, 1⟩, none⟩] : List HRow).length,
      selectTop (fun i _ => (fun _ => true) i) HRow.z
          ([⟨0, ⟨⟨0, 0⟩, 1, 0, 1, 1⟩, none⟩] : List HRow) = some j
      ∧ (fun _ => true) j = true
      ∧ (∀ k, ∀ hk : k < ([⟨0, ⟨⟨0, 0⟩, 1, 0, 1, 1⟩, none⟩] : List HRow).length,
          (fun _ => true) k = true →
          (([⟨0, ⟨⟨0, 0⟩, 1, 0, 1, 1⟩, none⟩] : List HRow).get ⟨k, hk⟩).z
            ≤ (([⟨0, ⟨⟨0, 0⟩, 1, 0, 1, 1⟩, none⟩] : List HRow).get ⟨j, hj⟩).z)
      ∧ ∀ hj2 : j < (set_hover ⟨0, 0⟩ (fun _ => true)
            ([⟨0, ⟨⟨0, 0⟩, 1, 0, 1, 1⟩, none⟩] : List HRow)).length,
          ((set_hover ⟨0, 0⟩ (fun _ => true)
              ([⟨0, ⟨⟨0, 0⟩, 1, 0, 1, 1⟩, none⟩] : List HRow)).get ⟨j, hj2⟩).hover
            = some (classify (localPoint
                ((([⟨0, ⟨⟨0, 0⟩, 1, 0, 1, 1⟩, none⟩] : List HRow).get ⟨j, hj⟩).xt) ⟨0, 0⟩)))
    ∧ (∀ l : Q2,
        (classify l = HoverPosition.center ↔ (|l.x| < 9/20 ∧ |l.y| < 9/20))
        ∧ (classify l = HoverPosition.edge ↔
            ((|l.x| < 9/20 ∧ ¬|l.y| < 9/20) ∨ (¬|l.x| < 9/20 ∧ |l.y| < 9/20)))
        ∧ (classify l = HoverPosition.corner ↔ (¬|l.x| < 9/20 ∧ ¬|l.y| < 9/20)))
    ∧ (∀ xt : XT, ∀ q : Q2, xt.det ≠ 0 → worldPoint xt (localPoint xt q) = q) :=
  hover_classification ⟨0, 0⟩ (fun _ => true) [⟨0, ⟨⟨0, 0⟩, 1, 0, 1, 1⟩, none⟩]
    ⟨0, by decide, rfl⟩

/-- C8: for an entity in the `Rotating` sub-state at position `t` with pointer
`pos ≠ t`, the rotate step writes `Quat::from_rotation_z θ` (a rotation about
the Z axis only: the quaternion's x and y components are zero) with
`θ = -angle_between(pos - t, (1,0))`, and rotating the vector `(1,0)` by `θ`
yields a vector positively parallel to `pos - t`. -/
theorem rotation_correctness (pos t : Q2) (rq : RQuat) (start : Q2) (hne : pos ≠ t) :
    (rotate_step pos ⟨t, rq⟩ (.rotating start)).rotation = from_rotation_z (rotate_angle pos t)
    ∧ (rotate_step pos ⟨t, rq⟩ (.rotating start)).rotation.x = 0
    ∧ (rotate_step pos ⟨t, rq⟩ (.rotating start)).rotation.y = 0
    ∧ rotate_angle pos t = -(angle_between ⟨pos.x - t.x, pos.y - t.y⟩ ⟨1, 0⟩)
    ∧ ∃ k : ℝ, 0 < k
        ∧ ((pos.x - t.x : ℚ) : ℝ) = k * Real.cos (rotate_angle pos t)
        ∧ ((pos.y - t.y : ℚ) : ℝ) = k * Real.sin (rotate_angle pos t) := by
  obtain ⟨px, py⟩ := pos
  obtain ⟨tx, ty⟩ := t
  have hd : ¬(px - tx = 0 ∧ py - ty = 0) := by
    rintro ⟨h1, h2⟩
    refine hne ?_
    rw [Q2.mk.injEq]
    constructor <;> linarith
  refine ⟨rfl, rfl, rfl, rfl, ?_⟩
  set w : ℂ :=
    ⟨((dotQ ⟨px - tx, py - ty⟩ ⟨1, 0⟩ : ℚ) : ℝ),
     ((perpDotQ ⟨px - tx, py - ty⟩ ⟨1, 0⟩ : ℚ) : ℝ)⟩ with hwdef
  have hwre : w.re = ((px - tx : ℚ) : ℝ) := by
    rw [hwdef]
    push_cast [dotQ]
    ring
  have hwim : w.im = -((py - ty : ℚ) : ℝ) := by
    rw [hwdef]
    push_cast [perpDotQ]
    ring
  have hw : w ≠ 0 := by
    intro h0
    refine hd ⟨?_, ?_⟩
    · have : w.re = 0 := by rw [h0]; rfl
      rw [hwre] at this
      exact_mod_cast this
    · have : w.im = 0 := by rw [h0]; rfl
      rw [hwim] at this
      have : ((py - ty : ℚ) : ℝ) = 0 := by linarith
      exact_mod_cast this
  have hθ : rotate_angle ⟨px, py⟩ ⟨tx, ty⟩ = -(Complex.arg w) := rfl
  have hcos : Real.cos (rotate_angle ⟨px, py⟩ ⟨tx, ty⟩) = w.re / Complex.abs w := by
    rw [hθ, Real.cos_neg]
    exact Complex.cos_arg hw
  have hsin : Real.sin (rotate_angle ⟨px, py⟩ ⟨tx, ty⟩) = -(w.im / Complex.abs w) := by
    rw [hθ, Real.sin_neg, Complex.sin_arg]
  have hkpos : 0 < Complex.abs w := Complex.abs.pos hw
  have hkne : Complex.abs w ≠ 0 := ne_of_gt hkpos
  refine ⟨Complex.abs w, hkpos, ?_, ?_⟩
  · rw [hcos]
    rw [mul_div_cancel₀ w.re hkne]
    rw [hwre]
  · rw [hsin]
    have : Complex.abs w * -(w.im / Complex.abs w) = -w.im := by
      rw [mul_neg, mul_div_cancel₀ w.im hkne]
    rw [this, hwim, neg_neg]

/-- Witness for `rotation_correctness` with the pointer at `(1,0)` and the
entity at the origin. -/
theorem rotation_correctness_witness :
    (rotate_step ⟨1, 0⟩ ⟨⟨0, 0⟩, ⟨0, 0, 0, 1⟩⟩ (.rotating ⟨0, 0⟩)).rotation
        = from_rotation_z (rotate_angle ⟨1, 0⟩ ⟨0, 0⟩)
    ∧ (rotate_step ⟨1, 0⟩ ⟨⟨0, 0⟩, ⟨0, 0, 0, 1⟩⟩ (.rotating ⟨0, 0⟩)).rotation.x = 0
    ∧ (rotate_step ⟨1, 0⟩ ⟨⟨0, 0⟩, ⟨0, 0, 0, 1⟩⟩ (.rotating ⟨0, 0⟩)).rotation.y = 0
    ∧ rotate_angle ⟨1, 0⟩ ⟨0, 0⟩
        = -(angle_between
            ⟨(⟨1, 0⟩ : Q2).x - (⟨0, 0⟩ : Q2).x, (⟨1, 0⟩ : Q2).y - (⟨0, 0⟩ : Q2).y⟩ ⟨1, 0⟩)
    ∧ ∃ k : ℝ, 0 < k
        ∧ (((⟨1, 0⟩ : Q2).x - (⟨0, 0⟩ : Q2).x : ℚ) : ℝ)
            = k * Real.cos (rotate_angle ⟨1, 0⟩ ⟨0, 0⟩)
        ∧ (((⟨1, 0⟩ : Q2).y - (⟨0, 0⟩ : Q2).y : ℚ) : ℝ)
            = k * Real.sin (rotate_angle ⟨1, 0⟩ ⟨0, 0⟩) :=
  rotation_correctness ⟨1, 0⟩ ⟨0, 0⟩ ⟨0, 0, 0, 1⟩ ⟨0, 0⟩ (by decide)

end PhysicsPlayground
